import Mathlib

/-!
Shallow embedding of the admission-control layer of the mcp-server
repository: the per-IP token-bucket rate limiter, client-identity
resolution, API-key validation, the MCP tracing middleware's body
handling and attribute recording, and the composed middleware pipeline,
together with proofs of the specified properties.

Conventions of the embedding:
- Go `float64` quantities (token counts, rates, elapsed seconds) are
  modelled as rationals `ℚ`; timestamps are rationals (seconds).
- Go strings are modelled as `String` or, where byte structure matters,
  as `List Nat` (byte values).
- The Go map `map[string]*bucket` is modelled as an association list
  with unique-key update semantics.
- Functions that read `time.Now()` take the current time as an explicit
  parameter; the monotonic clock is reflected by hypotheses that time
  never decreases.
- A Go channel used only for `close` is modelled by its closed flag;
  `close` of an already-closed channel is a runtime panic, modelled by
  an explicit `panic` outcome.
-/

namespace MCPServer

/-- One token bucket, from type `bucket` in the middleware package:
`tokens float64; lastCheck time.Time`. -/
structure Bucket where
  tokens : ℚ
  lastCheck : ℚ
  deriving Repr, DecidableEq

/-- The client table `map[string]*bucket`, as an association list. -/
abbrev Clients := List (String × Bucket)

/-- Go map read `m[ip]`: the value stored at the key, if any. -/
def lookupC (cs : Clients) (ip : String) : Option Bucket :=
  match cs with
  | [] => none
  | (k, b) :: rest => if k = ip then some b else lookupC rest ip

/-- Go map write `m[ip] = b`: replace the entry if the key is present,
otherwise add it. -/
def setC (cs : Clients) (ip : String) (b : Bucket) : Clients :=
  match cs with
  | [] => [(ip, b)]
  | (k, b0) :: rest => if k = ip then (ip, b) :: rest else (k, b0) :: setC rest ip b

/-- Go map delete loop of `cleanup`: keep exactly the entries the sweep
retains (those not idle longer than the bound). -/
def sweepC (cs : Clients) (now bound : ℚ) : Clients :=
  cs.filter (fun p => if now - p.2.lastCheck > bound then false else true)

/-- `RateLimiter` state: configuration fields, the client table, and the
closed-flag of the `stopClean` channel. -/
structure RateLimiter where
  rate : ℚ
  burst : ℤ
  clients : Clients
  cleanupInt : ℚ
  stopCleanClosed : Bool

/-- `RateLimiterConfig` from the middleware package. -/
structure RateLimiterConfig where
  RequestsPerSecond : ℚ
  BurstSize : ℤ
  CleanupInterval : ℚ

/-- `NewRateLimiter`: non-positive config values are replaced by the
documented defaults (rate 10, burst 20, cleanup interval 5 minutes);
the client table starts empty and the stop channel open. -/
def NewRateLimiter (cfg : RateLimiterConfig) : RateLimiter :=
  { rate := if cfg.RequestsPerSecond ≤ 0 then 10 else cfg.RequestsPerSecond
    burst := if cfg.BurstSize ≤ 0 then 20 else cfg.BurstSize
    clients := []
    cleanupInt := if cfg.CleanupInterval ≤ 0 then 300 else cfg.CleanupInterval
    stopCleanClosed := false }

/-- `RateLimiter.Allow(ip)` at current time `now`: on a previously-unseen
key, create a bucket with `burst − 1` tokens and admit; otherwise refill
by `elapsed × rate`, clamp to `burst`, advance `lastCheck`, then consume
one token if at least one is available. Returns the decision and the
updated limiter. -/
def RateLimiter.Allow (rl : RateLimiter) (ip : String) (now : ℚ) :
    Bool × RateLimiter :=
  match lookupC rl.clients ip with
  | none =>
      (true, { rl with clients := setC rl.clients ip ⟨(rl.burst : ℚ) - 1, now⟩ })
  | some b =>
      let elapsed := now - b.lastCheck
      let tokens1 := b.tokens + elapsed * rl.rate
      let tokens2 := if tokens1 > (rl.burst : ℚ) then (rl.burst : ℚ) else tokens1
      if tokens2 ≥ 1 then
        (true, { rl with clients := setC rl.clients ip ⟨tokens2 - 1, now⟩ })
      else
        (false, { rl with clients := setC rl.clients ip ⟨tokens2, now⟩ })

/-- One tick of the `cleanup` goroutine at time `now`: remove every entry
idle for more than `2 × cleanupInt`. -/
def RateLimiter.cleanupTick (rl : RateLimiter) (now : ℚ) : RateLimiter :=
  { rl with clients := sweepC rl.clients now (2 * rl.cleanupInt) }

/-- Outcome of an operation that can panic at runtime. -/
inductive GoOutcome
  | ok
  | panicked (msg : String)
  deriving Repr, DecidableEq

/-- `RateLimiter.Stop`: `close(rl.stopClean)`. Closing an already-closed
Go channel panics; otherwise the channel becomes closed. -/
def RateLimiter.Stop (rl : RateLimiter) : GoOutcome × RateLimiter :=
  if rl.stopCleanClosed then
    (GoOutcome.panicked "close of closed channel", rl)
  else
    (GoOutcome.ok, { rl with stopCleanClosed := true })

/-- `n` consecutive `Allow` calls for one key, all at the same time `t`,
returning the list of decisions and the final state. -/
def allowN (rl : RateLimiter) (ip : String) (t : ℚ) : Nat → List Bool × RateLimiter
  | 0 => ([], rl)
  | n + 1 =>
      let r1 := rl.Allow ip t
      let rest := allowN r1.2 ip t n
      (r1.1 :: rest.1, rest.2)

/-! ### Client identity resolution (`extractIP` and helpers) -/

/-- `splitFirst(s, sep)`: split on the first occurrence of the separator,
returning `(before, after, found)`; when the separator is absent,
`before` is the whole string. -/
def splitFirst : List Char → Char → List Char × List Char × Bool
  | [], _ => ([], [], false)
  | c :: rest, sep =>
      if c = sep then ([], rest, true)
      else
        let r := splitFirst rest sep
        (c :: r.1, r.2.1, r.2.2)

/-- The whitespace test of the source's `trimSpace` loops: space or tab. -/
def isGoSpace (c : Char) : Bool := c = ' ' || c = '\t'

/-- `trimSpace`: strip leading and trailing spaces and tabs. -/
def trimSpace (s : List Char) : List Char :=
  ((s.dropWhile isGoSpace).reverse.dropWhile isGoSpace).reverse

/-- `byteIndex`: index of the first occurrence of a byte, if any. -/
def byteIndex (s : List Char) (c : Char) : Option Nat :=
  s.findIdx? (fun x => x = c)

/-- Index of the last colon (the `last` helper of `net.SplitHostPort`). -/
def lastColon (s : List Char) : Option Nat :=
  match byteIndex s.reverse ':' with
  | none => none
  | some j => some (s.length - 1 - j)

/-- The error cases of `net.SplitHostPort`. -/
inductive AddrError
  | missingPort
  | tooManyColons
  | missingBracket
  | unexpectedBracket
  deriving Repr, DecidableEq

/-- `net.SplitHostPort` from the Go standard library: split `host:port` or
`[host]:port`, rejecting addresses with a missing port, stray brackets,
or too many colons outside brackets. -/
def goSplitHostPort (s : List Char) : Except AddrError (List Char × List Char) :=
  match lastColon s with
  | none => .error .missingPort
  | some i =>
      if s.headI = '[' then
        match byteIndex s ']' with
        | none => .error .missingBracket
        | some e =>
            if e + 1 = s.length then .error .missingPort
            else if e + 1 = i then
              if byteIndex (s.drop 1) '[' ≠ none then .error .unexpectedBracket
              else if byteIndex (s.drop (e + 1)) ']' ≠ none then .error .unexpectedBracket
              else .ok ((s.take e).drop 1, s.drop (i + 1))
            else if s.getD (e + 1) ' ' = ':' then .error .tooManyColons
            else .error .missingPort
      else
        if byteIndex (s.take i) ':' ≠ none then .error .tooManyColons
        else if byteIndex s '[' ≠ none then .error .unexpectedBracket
        else if byteIndex s ']' ≠ none then .error .unexpectedBracket
        else .ok (s.take i, s.drop (i + 1))

/-- The request fields consulted by `extractIP`: the `X-Forwarded-For`
and `X-Real-IP` header values as returned by `Header.Get` (empty when
the header is absent) and `RemoteAddr`. -/
structure IPRequest where
  xff : List Char
  xri : List Char
  remoteAddr : List Char

/-- `extractIP`: the first `X-Forwarded-For` entry (trimmed) if that
header is non-empty, else the trimmed `X-Real-IP` if non-empty, else the
host part of `RemoteAddr` when `net.SplitHostPort` succeeds, else
`RemoteAddr` verbatim. -/
def extractIP (r : IPRequest) : List Char :=
  if r.xff ≠ [] then
    let sp := splitFirst r.xff ','
    if sp.2.2 then trimSpace sp.1 else trimSpace r.xff
  else if r.xri ≠ [] then trimSpace r.xri
  else
    match goSplitHostPort r.remoteAddr with
    | .ok hp => hp.1
    | .error _ => r.remoteAddr

/-! ### The rate-limiting middleware's denial response -/

/-- A written HTTP response: status code, headers set, body bytes. -/
structure HttpResponse where
  status : Nat
  headers : List (String × String)
  body : String
  deriving Repr, DecidableEq

/-- The denial response of `RateLimiter.Middleware`: Content-Type and
Retry-After headers, status 429, and the JSON object emitted by
`json.NewEncoder(w).Encode` (which appends a newline). -/
def tooManyRequestsResponse : HttpResponse :=
  { status := 429
    headers := [("Content-Type", "application/json"), ("Retry-After", "1")]
    body := "\x7b\"error\":\"rate limit exceeded\"\x7d\n" }

/-- One request through `RateLimiter.Middleware` at time `now`: resolve
the client IP, consult `Allow`; on denial write the 429 response and do
not invoke `next`; on admission invoke `next`. Returns the updated
limiter, whether the inner handler was invoked, and the response this
stage wrote (if any). -/
def RateLimiter.Middleware (rl : RateLimiter) (r : IPRequest) (now : ℚ) :
    RateLimiter × Bool × Option HttpResponse :=
  let ip := String.mk (extractIP r)
  let res := rl.Allow ip now
  if res.1 then (res.2, true, none)
  else (res.2, false, some tooManyRequestsResponse)

/-! ### The composed middleware pipeline (main, HTTP transport) -/

/-- The stages of the HTTP handler chain built in `main`. -/
inductive Stage
  | otel
  | rateLimit
  | mcpTracing
  | metrics
  | auth
  | mux
  deriving Repr, DecidableEq

/-- The per-request decisions of the two deny-capable stages, abstracting
`rl.Allow(extractIP(r))` and the API-key check. -/
structure PipeRequest where
  allowed : Bool
  authorized : Bool
  deriving Repr, DecidableEq

/-- A handler, observed through the sequence of stages that execute on a
request, in execution order. -/
def PipeHandler := PipeRequest → List Stage

/-- The terminal mux. -/
def muxHandler : PipeHandler := fun _ => [Stage.mux]

/-- `middleware.AuthMiddleware`: runs, then either forwards or denies. -/
def AuthMW (next : PipeHandler) : PipeHandler := fun r =>
  Stage.auth :: (if r.authorized then next r else [])

/-- `middleware.MetricsMiddleware`: records and always forwards. -/
def MetricsMW (next : PipeHandler) : PipeHandler := fun r =>
  Stage.metrics :: next r

/-- `middleware.MCPTracingMiddleware`: enriches and always forwards. -/
def TracingMW (next : PipeHandler) : PipeHandler := fun r =>
  Stage.mcpTracing :: next r

/-- `RateLimiter.Middleware`: on denial responds without invoking any
inner stage; on admission forwards. -/
def RateLimitMW (next : PipeHandler) : PipeHandler := fun r =>
  Stage.rateLimit :: (if r.allowed then next r else [])

/-- `otelhttp.NewHandler`: starts the span and always forwards. -/
def OtelMW (next : PipeHandler) : PipeHandler := fun r =>
  Stage.otel :: next r

/-- The handler chain exactly as composed in `main` for the HTTP
transport: starting from the mux, wrap auth (when enabled), then
metrics, then MCP tracing, then rate limiting (when enabled), then
otelhttp outermost. -/
def buildHandler (authEnabled rateLimitEnabled : Bool) : PipeHandler :=
  let h := muxHandler
  let h := if authEnabled then AuthMW h else h
  let h := MetricsMW h
  let h := TracingMW h
  let h := if rateLimitEnabled then RateLimitMW h else h
  OtelMW h

/-! ### MCPTracingMiddleware: body handling -/

/-- The read cap of `MCPTracingMiddleware`: `1 << 20` bytes. -/
def maxBodySize : Nat := 1 <<< 20

/-- The body bytes the downstream handler can observe after
`MCPTracingMiddleware` processes a request. Requests that are not POSTs
to the MCP endpoint pass through untouched. On the endpoint the body is
read through a `MaxBytesReader`: a body over the cap makes the read
fail, the request is forwarded without the consumed bytes being
restored, and a downstream read yields the reader's error; otherwise the
read bytes are re-wrapped onto the request before any JSON parsing is
attempted, so the parse outcome cannot affect them. -/
def tracingObservedBody (method path : String) (body : List Nat) :
    Except String (List Nat) :=
  if method ≠ "POST" ∨ (path ≠ "/mcp" ∧ path ≠ "/mcp/") then .ok body
  else if body.length > maxBodySize then .error "http: request body too large"
  else .ok body

/-! ### MCPTracingMiddleware: span attribute recording -/

/-- A JSON-RPC request id as `encoding/json` decodes `any`: a JSON
number (Go `float64`, modelled as a rational), a string, or a value of
another type (recorded as nothing by the middleware). -/
inductive JsonId
  | num (x : ℚ)
  | str (s : String)
  | other
  deriving Repr

/-- The decoded `mcpRequest` envelope; `params` is `json.RawMessage`,
`none` when absent. -/
structure McpRequest where
  jsonrpc : String
  id : Option JsonId
  method : String
  params : Option String
  deriving Repr

/-- The decoded `toolCallParams`; `arguments` is raw bytes, `none` when
absent. -/
structure ToolCallParams where
  name : String
  arguments : Option String
  deriving Repr

/-- A span attribute value. -/
inductive AttrValue
  | str (v : String)
  | int (v : ℤ)
  | bool (v : Bool)
  deriving Repr, DecidableEq

/-- A span attribute. -/
structure Attr where
  key : String
  value : AttrValue
  deriving Repr, DecidableEq

/-- Go's `int(x)` conversion from `float64`: truncation toward zero. -/
def goIntOfRat (x : ℚ) : ℤ := if 0 ≤ x then ⌊x⌋ else ⌈x⌉

/-- Payload truncation: bodies over 4096 bytes are cut and marked. -/
def truncPayload (body : String) : String :=
  if body.length > 4096 then String.mk (body.data.take 4096) ++ "...(truncated)"
  else body

/-- The package-level default of the payload-logging opt-in flag
(`var logPayloadsEnabled = false`). -/
def logPayloadsEnabledDefault : Bool := false

/-- The request-id attribute: a numeric id is recorded as an int, a
string id as a string, and any other id type records nothing. -/
def idAttrs : Option JsonId → List Attr
  | none => []
  | some (.num x) => [⟨"mcp.request.id", .int (goIntOfRat x)⟩]
  | some (.str s) => [⟨"mcp.request.id", .str s⟩]
  | some .other => []

/-- The tool-call attributes: when the method is `tools/call` and params
are present and parse, the tool name is recorded, and the raw arguments
are recorded only when payload logging is enabled and arguments are
present. -/
def toolAttrs (parseTP : String → Option ToolCallParams) (logPayloads : Bool)
    (req : McpRequest) : List Attr :=
  match req.params with
  | some pb =>
      if req.method = "tools/call" then
        match parseTP pb with
        | some tp =>
            ⟨"mcp.tool.name", .str tp.name⟩ ::
              (if logPayloads && tp.arguments.isSome then
                [⟨"mcp.tool.arguments", .str (tp.arguments.getD "")⟩]
              else [])
        | none => []
      else []
  | none => []

/-- The full-payload attribute, recorded only when payload logging is
enabled, truncated to 4096 bytes. -/
def payloadAttrs (logPayloads : Bool) (body : String) : List Attr :=
  if logPayloads then [⟨"mcp.request.payload", .str (truncPayload body)⟩] else []

/-- The span attributes `MCPTracingMiddleware` records for a
successfully read body, in the order the source sets them. `parseEnv`
and `parseTP` stand for the two `json.Unmarshal` calls (into
`mcpRequest` and `toolCallParams`); a failed envelope parse records
nothing, and a failed params parse records no tool attributes. -/
def recordAttrs (parseEnv : String → Option McpRequest)
    (parseTP : String → Option ToolCallParams)
    (logPayloads : Bool) (body : String) : List Attr :=
  match parseEnv body with
  | none => []
  | some req =>
      [⟨"mcp.jsonrpc.version", .str req.jsonrpc⟩, ⟨"mcp.method", .str req.method⟩]
      ++ idAttrs req.id
      ++ toolAttrs parseTP logPayloads req
      ++ payloadAttrs logPayloads body

/-- `l` records an attribute under key `k`. -/
def recordsKey (l : List Attr) (k : String) : Prop :=
  ∃ a ∈ l, a.key = k

/-! ### API-key validation -/

/-- `subtle.ConstantTimeCompare` over byte lists, paired with the number
of byte-combining loop iterations it performs: zero when the lengths
differ (the function returns immediately), and the full common length
otherwise — the loop ORs the XOR of every byte pair and never exits
early. -/
def ConstantTimeCompare (x y : List Nat) : Bool × Nat :=
  if x.length ≠ y.length then (false, 0)
  else
    ((x.zip y).foldl (fun v p => v ||| (p.1 ^^^ p.2)) 0 == 0, x.length)

/-- `Config.ValidateAPIKey` of the revision that stores keys as a slice:
iterate over every stored key, run `ConstantTimeCompare` against each,
and latch `valid` on a match without breaking out of the loop. Paired
with the total byte-comparison count accumulated across all entries. -/
def ValidateAPIKey (apiKeys : List (List Nat)) (key : List Nat) : Bool × Nat :=
  apiKeys.foldl
    (fun acc storedKey =>
      let c := ConstantTimeCompare key storedKey
      (if c.1 then true else acc.1, acc.2 + c.2))
    (false, 0)

/-- `Config.ValidateAPIKey` of the revision that stores keys in a Go map
(`_, exists := c.apiKeys[key]`): a hash-map membership test. A map
lookup examines at most the entries of one hash bucket and stops at the
first equal key; it is modelled generously as a linear scan that stops
at the first match, paired with the number of stored entries examined —
an upper bound on what the real lookup inspects. -/
def validateAPIKeyMap (apiKeys : List (List Nat)) (key : List Nat) : Bool × Nat :=
  match apiKeys with
  | [] => (false, 0)
  | k :: rest =>
      if k = key then (true, 1)
      else
        let r := validateAPIKeyMap rest key
        (r.1, r.2 + 1)

/-! ### Reachable limiter states -/

/-- The limiter states reachable from construction, indexed by a time
that bounds every observation of the clock so far: `Allow` calls,
cleanup ticks and `Stop` at non-decreasing times, and the mere passage
of time. -/
inductive Reach : RateLimiter → ℚ → Prop
  | init (cfg : RateLimiterConfig) (t : ℚ) : Reach (NewRateLimiter cfg) t
  | allow {rl : RateLimiter} {t t' : ℚ} (ip : String) :
      Reach rl t → t ≤ t' → Reach (rl.Allow ip t').2 t'
  | sweep {rl : RateLimiter} {t t' : ℚ} :
      Reach rl t → t ≤ t' → Reach (rl.cleanupTick t') t'
  | stop {rl : RateLimiter} {t : ℚ} :
      Reach rl t → Reach (rl.Stop).2 t
  | wait {rl : RateLimiter} {t t' : ℚ} :
      Reach rl t → t ≤ t' → Reach rl t'

/-- The limiter's structural invariant at time `t`: the configuration is
sane (positive burst, non-negative rate) and every bucket carries
between 0 and `burst` tokens and was last checked no later than `t`. -/
def WellFormed (rl : RateLimiter) (t : ℚ) : Prop :=
  1 ≤ rl.burst ∧ 0 ≤ rl.rate ∧
    ∀ p ∈ rl.clients,
      0 ≤ p.2.tokens ∧ p.2.tokens ≤ (rl.burst : ℚ) ∧ p.2.lastCheck ≤ t

/-! ### Client-table lemmas -/

theorem lookupC_mem {cs : Clients} {ip : String} {b : Bucket}
    (h : lookupC cs ip = some b) : (ip, b) ∈ cs := by
  induction cs with
  | nil => simp [lookupC] at h
  | cons p rest ih =>
      obtain ⟨k, b0⟩ := p
      by_cases hk : k = ip
      · subst hk
        simp [lookupC] at h
        subst h
        exact List.mem_cons_self _ _
      · simp [lookupC, hk] at h
        exact List.mem_cons_of_mem _ (ih h)

theorem mem_setC {cs : Clients} {ip : String} {b : Bucket} {q : String × Bucket}
    (h : q ∈ setC cs ip b) : q = (ip, b) ∨ q ∈ cs := by
  induction cs with
  | nil =>
      simp [setC] at h
      exact Or.inl h
  | cons p rest ih =>
      obtain ⟨k, b0⟩ := p
      by_cases hk : k = ip
      · subst hk
        simp [setC] at h
        rcases h with h | h
        · exact Or.inl h
        · exact Or.inr (List.mem_cons_of_mem _ h)
      · simp [setC, hk] at h
        rcases h with h | h
        · exact Or.inr (by simp [h])
        · rcases ih h with h' | h'
          · exact Or.inl h'
          · exact Or.inr (List.mem_cons_of_mem _ h')

theorem lookupC_setC_self (cs : Clients) (ip : String) (b : Bucket) :
    lookupC (setC cs ip b) ip = some b := by
  induction cs with
  | nil => simp [setC, lookupC]
  | cons p rest ih =>
      obtain ⟨k, b0⟩ := p
      by_cases hk : k = ip
      · subst hk
        simp [setC, lookupC]
      · simp [setC, lookupC, hk, ih]

theorem lookupC_sweepC {cs : Clients} {ip : String} {b : Bucket} {now bound : ℚ}
    (h : lookupC cs ip = some b) (hkeep : ¬ now - b.lastCheck > bound) :
    lookupC (sweepC cs now bound) ip = some b := by
  induction cs with
  | nil => simp [lookupC] at h
  | cons p rest ih =>
      obtain ⟨k, b0⟩ := p
      by_cases hk : k = ip
      · subst hk
        simp [lookupC] at h
        subst h
        simp [sweepC, List.filter, if_neg hkeep, lookupC]
      · simp [lookupC, hk] at h
        by_cases hdrop : now - b0.lastCheck > bound
        · simpa [sweepC, List.filter, if_pos hdrop] using ih h
        · simpa [sweepC, List.filter, if_neg hdrop, lookupC, hk] using ih h

/-! ### Allow-step lemmas -/

/-- Evaluating `Allow` on a key whose bucket was last checked at the
current instant: no refill happens and the clamp is a no-op, so the call
consumes a token exactly when at least one is available. -/
theorem Allow_existing (rl : RateLimiter) (ip : String) (t : ℚ) (c : ℚ)
    (hlook : lookupC rl.clients ip = some ⟨c, t⟩) (hc : c ≤ (rl.burst : ℚ)) :
    rl.Allow ip t =
      if 1 ≤ c then
        (true, { rl with clients := setC rl.clients ip ⟨c - 1, t⟩ })
      else
        (false, { rl with clients := setC rl.clients ip ⟨c, t⟩ }) := by
  unfold RateLimiter.Allow
  rw [hlook]
  have h1 : c + (t - t) * rl.rate = c := by ring
  have h2 : ¬ (c > (rl.burst : ℚ)) := not_lt.mpr hc
  simp only [ge_iff_le, h1, if_neg h2]

/-- Running `n` `Allow` calls at one instant against a single bucket
holding `m` whole tokens admits exactly the first `m` of them. -/
theorem allowN_single_bucket (ip : String) (t : ℚ) :
    ∀ (n : Nat) (rl : RateLimiter) (m : Nat),
      (m : ℤ) ≤ rl.burst →
      rl.clients = [(ip, ⟨(m : ℚ), t⟩)] →
      (allowN rl ip t n).1 =
        List.replicate (min n m) true ++ List.replicate (n - m) false := by
  intro n
  induction n with
  | zero => intro rl m _ _; simp [allowN]
  | succ n ih =>
      intro rl m hm hcl
      have hlook : lookupC rl.clients ip = some ⟨(m : ℚ), t⟩ := by
        rw [hcl]; simp [lookupC]
      have hmq : (m : ℚ) ≤ (rl.burst : ℚ) := by exact_mod_cast hm
      have hstep := Allow_existing rl ip t (m : ℚ) hlook hmq
      by_cases hm1 : 1 ≤ m
      · have hm1q : (1 : ℚ) ≤ (m : ℚ) := by exact_mod_cast hm1
        rw [if_pos hm1q] at hstep
        have htok : (m : ℚ) - 1 = ((m - 1 : ℕ) : ℚ) := by
          push_cast [hm1]
          ring
        have hcl' : (setC rl.clients ip ⟨(m : ℚ) - 1, t⟩) =
            [(ip, ⟨((m - 1 : ℕ) : ℚ), t⟩)] := by
          rw [hcl, htok]
          simp [setC]
        have ih' := ih { rl with clients := setC rl.clients ip ⟨(m : ℚ) - 1, t⟩ }
          (m - 1)
          (by simp only []; omega)
          (by simp only [hcl'])
        simp only [allowN, hstep, ih']
        have e1 : min (n + 1) m = min n (m - 1) + 1 := by omega
        have e2 : (n + 1) - m = n - (m - 1) := by omega
        rw [e1, e2, List.replicate_succ]
        rfl
      · have hm0 : m = 0 := by omega
        subst hm0
        have hm1q : ¬ (1 : ℚ) ≤ ((0 : ℕ) : ℚ) := by norm_num
        rw [if_neg hm1q] at hstep
        have hcl' : (setC rl.clients ip ⟨((0 : ℕ) : ℚ), t⟩) =
            [(ip, ⟨((0 : ℕ) : ℚ), t⟩)] := by
          rw [hcl]
          simp [setC]
        have ih' := ih { rl with clients := setC rl.clients ip ⟨((0 : ℕ) : ℚ), t⟩ }
          0
          (by simp only []; omega)
          (by simp only [hcl'])
        simp only [allowN, hstep, ih']
        simp [List.replicate_succ]

/-! ### Claim theorems -/

/-- Claim C1: for a limiter configured with positive burst `B` and any
rate, the first call for a fresh identity creates a bucket holding
`B − 1` tokens, the first `B` calls all return true, and the `(B+1)`-th
call with no elapsed time returns false. -/
theorem C1_burst_admits_then_denies (B : ℕ) (hB : 1 ≤ B)
    (cfg : RateLimiterConfig) (hcfg : cfg.BurstSize = (B : ℤ))
    (ip : String) (t : ℚ) :
    lookupC ((NewRateLimiter cfg).Allow ip t).2.clients ip
        = some ⟨(B : ℚ) - 1, t⟩ ∧
    (allowN (NewRateLimiter cfg) ip t (B + 1)).1 =
        List.replicate B true ++ [false] := by
  have hBpos : ¬ ((B : ℤ) ≤ 0) := by omega
  have htok : ((NewRateLimiter cfg).burst : ℚ) - 1 = ((B - 1 : ℕ) : ℚ) := by
    simp only [NewRateLimiter, hcfg, if_neg hBpos]
    push_cast [hB]
    ring
  have hstep : (NewRateLimiter cfg).Allow ip t =
      (true, { NewRateLimiter cfg with
                clients := [(ip, ⟨((B - 1 : ℕ) : ℚ), t⟩)] }) := by
    unfold RateLimiter.Allow
    rw [show (NewRateLimiter cfg).clients = [] from rfl]
    simp only [lookupC, setC, htok]
  have hm : ((B - 1 : ℕ) : ℤ) ≤
      ({ NewRateLimiter cfg with
          clients := [(ip, ⟨((B - 1 : ℕ) : ℚ), t⟩)] } : RateLimiter).burst := by
    simp only [NewRateLimiter, hcfg, if_neg hBpos]
    omega
  have hrest := allowN_single_bucket ip t B
    { NewRateLimiter cfg with clients := [(ip, ⟨((B - 1 : ℕ) : ℚ), t⟩)] }
    (B - 1) hm rfl
  constructor
  · rw [hstep]
    have hc2 : ((B - 1 : ℕ) : ℚ) = (B : ℚ) - 1 := by
      push_cast [hB]
      ring
    simp [lookupC, hc2]
  · simp only [allowN, hstep, hrest]
    have e1 : min B (B - 1) = B - 1 := by omega
    have e2 : B - (B - 1) = 1 := by omega
    rw [e1, e2]
    have e3 : B = (B - 1) + 1 := by omega
    rw [e3, List.replicate_succ]
    rfl

/-- Witness for C1 at `B = 3`, rate 5, time 0. -/
theorem C1_burst_admits_then_denies_witness :
    1 ≤ 3 ∧ (RateLimiterConfig.mk 5 3 60).BurstSize = ((3 : ℕ) : ℤ) ∧
    (lookupC ((NewRateLimiter ⟨5, 3, 60⟩).Allow "1.2.3.4" 0).2.clients "1.2.3.4"
        = some ⟨(3 : ℚ) - 1, 0⟩ ∧
      (allowN (NewRateLimiter ⟨5, 3, 60⟩) "1.2.3.4" 0 (3 + 1)).1 =
        List.replicate 3 true ++ [false]) :=
  ⟨by decide, by decide,
    C1_burst_admits_then_denies 3 (by decide) ⟨5, 3, 60⟩ (by decide) "1.2.3.4" 0⟩

/-! ### Well-formedness preservation -/

theorem wellFormed_new (cfg : RateLimiterConfig) (t : ℚ) :
    WellFormed (NewRateLimiter cfg) t := by
  refine ⟨?_, ?_, ?_⟩
  · show 1 ≤ (if cfg.BurstSize ≤ 0 then 20 else cfg.BurstSize)
    split <;> omega
  · show 0 ≤ (if cfg.RequestsPerSecond ≤ 0 then 10 else cfg.RequestsPerSecond)
    split
    · norm_num
    · linarith [not_le.mp (by assumption : ¬ cfg.RequestsPerSecond ≤ 0)]
  · intro p hp
    simp [NewRateLimiter] at hp

theorem wellFormed_allow {rl : RateLimiter} {t t' : ℚ} (ht : t ≤ t')
    (h : WellFormed rl t) (ip : String) :
    WellFormed (rl.Allow ip t').2 t' := by
  obtain ⟨hb, hr, hcl⟩ := h
  have hb1 : (1 : ℚ) ≤ (rl.burst : ℚ) := by exact_mod_cast hb
  cases hlook : lookupC rl.clients ip with
  | none =>
      simp only [RateLimiter.Allow, hlook]
      refine ⟨hb, hr, ?_⟩
      intro p hp
      rcases mem_setC hp with rfl | hp'
      · exact ⟨by simp; linarith, by simp, le_refl t'⟩
      · obtain ⟨h1, h2, h3⟩ := hcl p hp'
        exact ⟨h1, h2, le_trans h3 ht⟩
  | some b =>
      obtain ⟨h1, h2, h3⟩ := hcl (ip, b) (lookupC_mem hlook)
      simp only at h1 h2 h3
      have helap : 0 ≤ (t' - b.lastCheck) * rl.rate :=
        mul_nonneg (by linarith) hr
      simp only [RateLimiter.Allow, hlook]
      set t1 := b.tokens + (t' - b.lastCheck) * rl.rate with ht1
      have h2a : 0 ≤ t1 := by rw [ht1]; linarith
      set t2 := if t1 > (rl.burst : ℚ) then (rl.burst : ℚ) else t1 with ht2
      have h2b : 0 ≤ t2 := by
        rw [ht2]
        split
        · linarith
        · exact h2a
      have h2c : t2 ≤ (rl.burst : ℚ) := by
        rw [ht2]
        split
        · exact le_refl _
        · exact not_lt.mp (by assumption)
      split_ifs with hone
      all_goals refine ⟨hb, hr, ?_⟩
      all_goals intro p hp
      all_goals rcases mem_setC hp with rfl | hp'
      · exact ⟨by simp; linarith, by simp; linarith, le_refl t'⟩
      · obtain ⟨g1, g2, g3⟩ := hcl p hp'
        exact ⟨g1, g2, le_trans g3 ht⟩
      · exact ⟨by simp; linarith, by simp; linarith, le_refl t'⟩
      · obtain ⟨g1, g2, g3⟩ := hcl p hp'
        exact ⟨g1, g2, le_trans g3 ht⟩

theorem wellFormed_cleanup {rl : RateLimiter} {t t' : ℚ} (ht : t ≤ t')
    (h : WellFormed rl t) : WellFormed (rl.cleanupTick t') t' := by
  obtain ⟨hb, hr, hcl⟩ := h
  refine ⟨hb, hr, ?_⟩
  intro p hp
  have hp' : p ∈ rl.clients := by
    simp only [RateLimiter.cleanupTick, sweepC] at hp
    exact (List.mem_filter.mp hp).1
  obtain ⟨h1, h2, h3⟩ := hcl p hp'
  exact ⟨h1, h2, le_trans h3 ht⟩

theorem wellFormed_stop {rl : RateLimiter} {t : ℚ} (h : WellFormed rl t) :
    WellFormed (rl.Stop).2 t := by
  obtain ⟨hb, hr, hcl⟩ := h
  unfold RateLimiter.Stop
  split <;> exact ⟨hb, hr, hcl⟩

theorem wellFormed_wait {rl : RateLimiter} {t t' : ℚ} (ht : t ≤ t')
    (h : WellFormed rl t) : WellFormed rl t' := by
  obtain ⟨hb, hr, hcl⟩ := h
  refine ⟨hb, hr, ?_⟩
  intro p hp
  obtain ⟨h1, h2, h3⟩ := hcl p hp
  exact ⟨h1, h2, le_trans h3 ht⟩

theorem wellFormed_reach {rl : RateLimiter} {t : ℚ} (h : Reach rl t) :
    WellFormed rl t := by
  induction h with
  | init cfg t => exact wellFormed_new cfg t
  | allow ip _ hle ih => exact wellFormed_allow hle ih ip
  | sweep _ hle ih => exact wellFormed_cleanup hle ih
  | stop _ ih => exact wellFormed_stop ih
  | wait _ hle ih => exact wellFormed_wait hle ih

/-- Claim C2 (code bug): `Stop` executes `close(rl.stopClean)` with no
guard, so a second call closes an already-closed channel and panics
instead of being a safe no-op. This evaluates the model at the failing
input: construct a limiter, stop it, stop it again. -/
theorem C2_second_stop_panics :
    ((NewRateLimiter ⟨10, 20, 300⟩).Stop.2.Stop).1 =
      GoOutcome.panicked "close of closed channel" := by
  rfl

/-- Claim C8: in every reachable limiter state, every bucket in the
client table holds between 0 and `burst` tokens; bucket creation, every
`Allow` refill/consume, the cleanup sweep, stopping, and waiting all
preserve the invariant. -/
theorem C8_tokens_invariant (rl : RateLimiter) (t : ℚ) (h : Reach rl t) :
    ∀ p ∈ rl.clients, 0 ≤ p.2.tokens ∧ p.2.tokens ≤ (rl.burst : ℚ) := by
  intro p hp
  obtain ⟨_, _, hcl⟩ := wellFormed_reach h
  obtain ⟨h1, h2, _⟩ := hcl p hp
  exact ⟨h1, h2⟩

/-- Witness for C8: the state reached by one `Allow` call on a fresh
default-configured limiter, at its single table entry. -/
theorem C8_tokens_invariant_witness :
    0 ≤ (("1.2.3.4", Bucket.mk 19 1) : String × Bucket).2.tokens ∧
      (("1.2.3.4", Bucket.mk 19 1) : String × Bucket).2.tokens ≤
        ((((NewRateLimiter ⟨10, 20, 300⟩).Allow "1.2.3.4" 1).2).burst : ℚ) :=
  C8_tokens_invariant ((NewRateLimiter ⟨10, 20, 300⟩).Allow "1.2.3.4" 1).2 1
    (Reach.allow "1.2.3.4" (Reach.init ⟨10, 20, 300⟩ 0) (by norm_num))
    ("1.2.3.4", Bucket.mk 19 1)
    (by norm_num [NewRateLimiter, RateLimiter.Allow, lookupC, setC])

/-- Claim C10: an `Allow` call that denies still mutates the identity's
bucket — the refill is applied and `lastCheck` advances to the current
time — and consequently a subsequent sweep within `2 × cleanupInterval`
of the denied request does not evict the entry. -/
theorem C10_deny_updates_and_survives_sweep (rl : RateLimiter) (ip : String)
    (t : ℚ) (b : Bucket) (hb : lookupC rl.clients ip = some b)
    (hdeny : (rl.Allow ip t).1 = false) :
    lookupC (rl.Allow ip t).2.clients ip =
      some ⟨if b.tokens + (t - b.lastCheck) * rl.rate > (rl.burst : ℚ)
              then (rl.burst : ℚ)
              else b.tokens + (t - b.lastCheck) * rl.rate, t⟩ ∧
    ∀ t', t' - t ≤ 2 * rl.cleanupInt →
      lookupC (((rl.Allow ip t).2.cleanupTick t')).clients ip =
        some ⟨if b.tokens + (t - b.lastCheck) * rl.rate > (rl.burst : ℚ)
                then (rl.burst : ℚ)
                else b.tokens + (t - b.lastCheck) * rl.rate, t⟩ := by
  simp only [RateLimiter.Allow, hb] at hdeny ⊢
  set t2 := if b.tokens + (t - b.lastCheck) * rl.rate > (rl.burst : ℚ)
              then (rl.burst : ℚ)
              else b.tokens + (t - b.lastCheck) * rl.rate with ht2
  split_ifs at hdeny ⊢ with hone
  dsimp only
  refine ⟨lookupC_setC_self _ _ _, ?_⟩
  intro t' ht'
  simp only [RateLimiter.cleanupTick]
  exact lookupC_sweepC (lookupC_setC_self _ _ _) (not_lt.mpr ht')

/-- Witness for C10: a bucket with zero tokens, denied at time 5, is
updated in place (tokens 0, `lastCheck` 5) and survives a sweep at
time 300 with a 300-second cleanup interval. -/
theorem C10_deny_updates_and_survives_sweep_witness :
    lookupC ((RateLimiter.mk 10 20 [("9.9.9.9", Bucket.mk 0 5)] 300 false).Allow
        "9.9.9.9" 5).2.clients "9.9.9.9" = some (Bucket.mk 0 5) ∧
    lookupC (((RateLimiter.mk 10 20 [("9.9.9.9", Bucket.mk 0 5)] 300 false).Allow
        "9.9.9.9" 5).2.cleanupTick 300).clients "9.9.9.9" = some (Bucket.mk 0 5) := by
  have h := C10_deny_updates_and_survives_sweep
    (RateLimiter.mk 10 20 [("9.9.9.9", Bucket.mk 0 5)] 300 false) "9.9.9.9" 5
    (Bucket.mk 0 5) (by simp [lookupC])
    (by norm_num [RateLimiter.Allow, lookupC])
  norm_num at h
  exact ⟨h.1, h.2 300 (by norm_num)⟩

/-- When the separator is absent, `splitFirst` returns the whole string
as the `before` component. -/
theorem splitFirst_not_found {s : List Char} {sep : Char}
    (h : (splitFirst s sep).2.2 = false) : (splitFirst s sep).1 = s := by
  induction s with
  | nil => rfl
  | cons c rest ih =>
      by_cases hc : c = sep
      · simp [splitFirst, hc] at h
      · simp only [splitFirst, if_neg hc] at h ⊢
        rw [ih h]

/-- Claim C6: whenever `Allow` denies a request, the middleware responds
with status 429, header `Retry-After: 1`, and the JSON error body, and
does not invoke the inner handler. -/
theorem C6_denial_response (rl : RateLimiter) (r : IPRequest) (now : ℚ)
    (hdeny : (rl.Allow (String.mk (extractIP r)) now).1 = false) :
    (rl.Middleware r now).2.1 = false ∧
    (rl.Middleware r now).2.2 = some tooManyRequestsResponse ∧
    tooManyRequestsResponse.status = 429 ∧
    ("Retry-After", "1") ∈ tooManyRequestsResponse.headers ∧
    tooManyRequestsResponse.body = "\x7b\"error\":\"rate limit exceeded\"\x7d\n" := by
  have hm : rl.Middleware r now =
      ((rl.Allow (String.mk (extractIP r)) now).2, false,
        some tooManyRequestsResponse) := by
    unfold RateLimiter.Middleware
    simp only [hdeny]
    simp
  rw [hm]
  exact ⟨rfl, rfl, rfl, by simp [tooManyRequestsResponse], rfl⟩

/-- Witness for C6: a request from a client whose bucket is empty, at
the instant of its last check, is denied and receives the 429 response
without the inner handler running. -/
theorem C6_denial_response_witness :
    ((RateLimiter.mk 10 20 [("1.2.3.4", Bucket.mk 0 5)] 300 false).Allow
        (String.mk (extractIP ⟨[], [], "1.2.3.4:80".data⟩)) 5).1 = false ∧
    ((RateLimiter.mk 10 20 [("1.2.3.4", Bucket.mk 0 5)] 300 false).Middleware
        ⟨[], [], "1.2.3.4:80".data⟩ 5).2.1 = false ∧
    ((RateLimiter.mk 10 20 [("1.2.3.4", Bucket.mk 0 5)] 300 false).Middleware
        ⟨[], [], "1.2.3.4:80".data⟩ 5).2.2 = some tooManyRequestsResponse := by
  have hd : ((RateLimiter.mk 10 20 [("1.2.3.4", Bucket.mk 0 5)] 300 false).Allow
      (String.mk (extractIP ⟨[], [], "1.2.3.4:80".data⟩)) 5).1 = false := by
    have hip : String.mk (extractIP ⟨[], [], "1.2.3.4:80".data⟩) = "1.2.3.4" := by
      decide
    rw [hip]
    norm_num [RateLimiter.Allow, lookupC]
  have h := C6_denial_response
    (RateLimiter.mk 10 20 [("1.2.3.4", Bucket.mk 0 5)] 300 false)
    ⟨[], [], "1.2.3.4:80".data⟩ 5 hd
  exact ⟨hd, h.1, h.2.1⟩

/-- Claim C7: the resolved client identity is the trimmed first
comma-delimited `X-Forwarded-For` entry when that header is non-empty
(taking precedence over `X-Real-IP`), else the trimmed `X-Real-IP` when
non-empty, else the host part of the peer address when it splits as
`host:port`, else the peer address verbatim. -/
theorem C7_identity_resolution (r : IPRequest) :
    (r.xff ≠ [] → extractIP r = trimSpace (splitFirst r.xff ',').1) ∧
    (r.xff = [] → r.xri ≠ [] → extractIP r = trimSpace r.xri) ∧
    (r.xff = [] → r.xri = [] →
      (∀ h p, goSplitHostPort r.remoteAddr = .ok (h, p) → extractIP r = h) ∧
      (∀ e, goSplitHostPort r.remoteAddr = .error e → extractIP r = r.remoteAddr)) := by
  refine ⟨?_, ?_, ?_⟩
  · intro hx
    unfold extractIP
    rw [if_pos hx]
    cases hf : (splitFirst r.xff ',').2.2
    · simp only [hf, Bool.false_eq_true, if_false, splitFirst_not_found hf]
    · simp only [hf, if_true]
  · intro hx hxr
    simp [extractIP, hx, hxr]
  · intro hx hxr
    constructor
    · intro h p hok
      simp [extractIP, hx, hxr, hok]
    · intro e herr
      simp [extractIP, hx, hxr, herr]

/-- Witness for C7: with both proxy headers set, the first trimmed
`X-Forwarded-For` entry wins; the computed identity is `10.0.0.1`. -/
theorem C7_identity_resolution_witness :
    ("10.0.0.1, 10.0.0.2".data ≠ []) ∧
    extractIP ⟨"10.0.0.1, 10.0.0.2".data, "10.0.0.2".data, "9.9.9.9:80".data⟩ =
      trimSpace (splitFirst "10.0.0.1, 10.0.0.2".data ',').1 ∧
    extractIP ⟨"10.0.0.1, 10.0.0.2".data, "10.0.0.2".data, "9.9.9.9:80".data⟩ =
      "10.0.0.1".data :=
  ⟨by decide,
    (C7_identity_resolution
      ⟨"10.0.0.1, 10.0.0.2".data, "10.0.0.2".data, "9.9.9.9:80".data⟩).1 (by decide),
    by decide⟩

/-- Claim C3 counterexample: with rate limiting enabled, a request the
limiter denies terminates at the rate-limiting stage without the MCP
tracing middleware (the observability-enrichment stage) ever executing:
the executed stages are exactly otelhttp then rate limiting. -/
theorem C3_tracing_skipped_on_denial :
    Stage.mcpTracing ∉ buildHandler true true ⟨false, true⟩ ∧
    buildHandler true true ⟨false, true⟩ = [Stage.otel, Stage.rateLimit] := by
  decide

/-- Claim C3 amended: admission metering runs before the MCP tracing
middleware, so a denied request is never enriched; for every admitted
request the tracing stage executes before the metrics, authentication,
and dispatch stages. -/
theorem C3_amended_pipeline_order (r : PipeRequest) :
    buildHandler true true r =
      Stage.otel :: Stage.rateLimit ::
        (if r.allowed then
          Stage.mcpTracing :: Stage.metrics :: Stage.auth ::
            (if r.authorized then [Stage.mux] else [])
        else []) := by
  obtain ⟨a, u⟩ := r
  cases a <;> cases u <;> rfl

/-- Witness for the amended C3: an admitted, authorized request flows
otel, rate limit, tracing, metrics, auth, mux in that order. -/
theorem C3_amended_pipeline_order_witness :
    buildHandler true true ⟨true, true⟩ =
      Stage.otel :: Stage.rateLimit ::
        (if (PipeRequest.mk true true).allowed then
          Stage.mcpTracing :: Stage.metrics :: Stage.auth ::
            (if (PipeRequest.mk true true).authorized then [Stage.mux] else [])
        else []) :=
  C3_amended_pipeline_order ⟨true, true⟩

/-- Claim C5 counterexample: a POST body to the MCP endpoint one byte
over the 1 MiB cap is not restored — the downstream read errors instead
of observing the original bytes. -/
theorem C5_oversized_body_not_restored :
    tracingObservedBody "POST" "/mcp" (List.replicate (maxBodySize + 1) 42) ≠
      Except.ok (List.replicate (maxBodySize + 1) 42) ∧
    tracingObservedBody "POST" "/mcp" (List.replicate (maxBodySize + 1) 42) =
      Except.error "http: request body too large" := by
  have hlen : (List.replicate (maxBodySize + 1) 42).length > maxBodySize := by
    simp
  have he : tracingObservedBody "POST" "/mcp" (List.replicate (maxBodySize + 1) 42) =
      Except.error "http: request body too large" := by
    unfold tracingObservedBody
    rw [if_neg (by simp), if_pos hlen]
  exact ⟨by rw [he]; simp, he⟩

/-- Claim C5 amended: for every request whose body is within the 1 MiB
cap (on or off the RPC endpoint), the downstream handler observes
exactly the bytes the client sent, regardless of whether JSON parsing
succeeds; only an over-cap body on the RPC endpoint is lost downstream. -/
theorem C5_amended_body_roundtrip (method path : String) (body : List Nat)
    (hlen : body.length ≤ maxBodySize) :
    tracingObservedBody method path body = Except.ok body := by
  unfold tracingObservedBody
  split_ifs with h1 h2
  · rfl
  · omega
  · rfl

/-- Witness for the amended C5 at a three-byte body. -/
theorem C5_amended_body_roundtrip_witness :
    ([1, 2, 3] : List Nat).length ≤ maxBodySize ∧
    tracingObservedBody "POST" "/mcp" [1, 2, 3] = Except.ok [1, 2, 3] :=
  ⟨by decide, C5_amended_body_roundtrip "POST" "/mcp" [1, 2, 3] (by decide)⟩

/-- Every attribute the id-recording step emits is keyed
`mcp.request.id`. -/
theorem mem_idAttrs_key {a : Attr} {i : Option JsonId} (h : a ∈ idAttrs i) :
    a.key = "mcp.request.id" := by
  match i with
  | none => simp [idAttrs] at h
  | some (.num x) =>
      simp [idAttrs] at h
      rw [h]
  | some (.str s) =>
      simp [idAttrs] at h
      rw [h]
  | some .other => simp [idAttrs] at h

/-- Claim C9: for a body parsing as a JSON-RPC envelope with method
`tools/call` whose params parse as tool-call parameters, the middleware
records the tool name unconditionally, records the raw arguments
exactly when the payload-logging flag is enabled and arguments are
present, records the full payload exactly when that flag is enabled,
and the flag's package default is disabled. -/
theorem C9_toolcall_attribute_policy
    (parseEnv : String → Option McpRequest)
    (parseTP : String → Option ToolCallParams)
    (logPayloads : Bool) (body pb : String) (req : McpRequest)
    (tp : ToolCallParams)
    (henv : parseEnv body = some req)
    (hm : req.method = "tools/call")
    (hp : req.params = some pb)
    (htp : parseTP pb = some tp) :
    Attr.mk "mcp.tool.name" (.str tp.name) ∈
        recordAttrs parseEnv parseTP logPayloads body ∧
    (recordsKey (recordAttrs parseEnv parseTP logPayloads body) "mcp.tool.arguments"
      ↔ logPayloads = true ∧ tp.arguments.isSome = true) ∧
    (recordsKey (recordAttrs parseEnv parseTP logPayloads body) "mcp.request.payload"
      ↔ logPayloads = true) ∧
    logPayloadsEnabledDefault = false := by
  have hrec : recordAttrs parseEnv parseTP logPayloads body =
      [⟨"mcp.jsonrpc.version", .str req.jsonrpc⟩,
        ⟨"mcp.method", .str req.method⟩]
      ++ idAttrs req.id
      ++ (⟨"mcp.tool.name", .str tp.name⟩ ::
            (if logPayloads && tp.arguments.isSome then
              [⟨"mcp.tool.arguments", .str (tp.arguments.getD "")⟩]
            else []))
      ++ payloadAttrs logPayloads body := by
    simp [recordAttrs, toolAttrs, henv, hp, htp, hm]
  unfold recordsKey
  rw [hrec]
  refine ⟨by simp, ?_, ?_, rfl⟩
  · constructor
    · rintro ⟨a, ha, hk⟩
      simp only [List.mem_append, List.mem_cons, List.not_mem_nil, or_false] at ha
      rcases ha with (((ha | ha) | ha) | ha | ha) | ha
      · subst ha
        simp at hk
      · subst ha
        simp at hk
      · rw [mem_idAttrs_key ha] at hk
        simp at hk
      · subst ha
        simp at hk
      · split_ifs at ha with hc
        · simp only [Bool.and_eq_true] at hc
          exact ⟨hc.1, hc.2⟩
        · simp at ha
      · unfold payloadAttrs at ha
        split_ifs at ha with hlp
        · simp only [List.mem_singleton] at ha
          subst ha
          simp at hk
        · simp at ha
    · rintro ⟨hlp, hargs⟩
      refine ⟨⟨"mcp.tool.arguments", .str (tp.arguments.getD "")⟩, ?_, rfl⟩
      have hc : (logPayloads && tp.arguments.isSome) = true := by
        rw [hlp, hargs]
        rfl
      simp [hc]
  · constructor
    · rintro ⟨a, ha, hk⟩
      simp only [List.mem_append, List.mem_cons, List.not_mem_nil, or_false] at ha
      rcases ha with (((ha | ha) | ha) | ha | ha) | ha
      · subst ha
        simp at hk
      · subst ha
        simp at hk
      · rw [mem_idAttrs_key ha] at hk
        simp at hk
      · subst ha
        simp at hk
      · split_ifs at ha with hc
        · simp only [List.mem_singleton] at ha
          subst ha
          simp at hk
        · simp at ha
      · unfold payloadAttrs at ha
        split_ifs at ha with hlp
        · exact hlp
        · simp at ha
    · intro hlp
      refine ⟨⟨"mcp.request.payload", .str (truncPayload body)⟩, ?_, rfl⟩
      simp [payloadAttrs, hlp]

/-- Witness for C9: a concrete `tools/call` parse with payload logging
disabled records the tool name but neither arguments nor payload. -/
theorem C9_toolcall_attribute_policy_witness :
    Attr.mk "mcp.tool.name" (.str "x") ∈
      recordAttrs (fun _ => some ⟨"2.0", some (.num 2), "tools/call", some "PB"⟩)
        (fun _ => some ⟨"x", some "\x7b\x7d"⟩) false "B" ∧
    ¬ recordsKey
        (recordAttrs (fun _ => some ⟨"2.0", some (.num 2), "tools/call", some "PB"⟩)
          (fun _ => some ⟨"x", some "\x7b\x7d"⟩) false "B") "mcp.tool.arguments" ∧
    ¬ recordsKey
        (recordAttrs (fun _ => some ⟨"2.0", some (.num 2), "tools/call", some "PB"⟩)
          (fun _ => some ⟨"x", some "\x7b\x7d"⟩) false "B") "mcp.request.payload" := by
  have h := C9_toolcall_attribute_policy
    (fun _ => some ⟨"2.0", some (.num 2), "tools/call", some "PB"⟩)
    (fun _ => some ⟨"x", some "\x7b\x7d"⟩) false "B" "PB"
    ⟨"2.0", some (.num 2), "tools/call", some "PB"⟩ ⟨"x", some "\x7b\x7d"⟩
    rfl rfl rfl rfl
  refine ⟨h.1, ?_, ?_⟩
  · intro hrk
    have hc := h.2.1.mp hrk
    simp at hc
  · intro hrk
    have hc := h.2.2.1.mp hrk
    simp at hc

/-! ### API-key comparison lemmas -/

/-- Folding OR over a list distributes over the starting accumulator. -/
theorem foldl_lor_shift (g : Nat × Nat → Nat) (ps : List (Nat × Nat)) (v : Nat) :
    ps.foldl (fun acc p => acc ||| g p) v =
      v ||| ps.foldl (fun acc p => acc ||| g p) 0 := by
  induction ps generalizing v with
  | nil => simp
  | cons p ps ih =>
      rw [List.foldl_cons, List.foldl_cons, ih, ih (0 ||| g p)]
      simp [Nat.lor_assoc]

/-- A zero OR forces its left operand to zero. -/
theorem lor_eq_zero_left {n m : Nat} (h : n ||| m = 0) : n = 0 := by
  by_contra hn
  obtain ⟨i, hi⟩ := Nat.exists_most_significant_bit hn
  have hbit : (n ||| m).testBit i = true := by
    rw [Nat.testBit_lor, hi.1]
    rfl
  rw [h] at hbit
  simp at hbit

/-- A zero OR forces its right operand to zero. -/
theorem lor_eq_zero_right {n m : Nat} (h : n ||| m = 0) : m = 0 := by
  rw [Nat.lor_comm] at h
  exact lor_eq_zero_left h

/-- The OR-of-XORs accumulator of `ConstantTimeCompare` is zero exactly
when every zipped byte pair agrees. -/
theorem foldl_xor_eq_zero (x y : List Nat) (hlen : x.length = y.length) :
    ((x.zip y).foldl (fun acc p => acc ||| (p.1 ^^^ p.2)) 0 = 0) ↔ x = y := by
  induction x generalizing y with
  | nil =>
      cases y with
      | nil => simp
      | cons b y => simp at hlen
  | cons a x ih =>
      cases y with
      | nil => simp at hlen
      | cons b y =>
          have hlen' : x.length = y.length := by
            simp only [List.length_cons] at hlen
            omega
          rw [List.zip_cons_cons, List.foldl_cons, foldl_lor_shift]
          have hz : (0 ||| (a ^^^ b)) = a ^^^ b := by simp
          rw [hz]
          constructor
          · intro h
            have h1 : a ^^^ b = 0 := lor_eq_zero_left h
            have h2 := lor_eq_zero_right h
            have hab : a = b := Nat.xor_eq_zero.mp h1
            have hxy : x = y := (ih y hlen').mp h2
            rw [hab, hxy]
          · intro h
            injection h with h1 h2
            have h3 : (x.zip y).foldl (fun acc p => acc ||| (p.1 ^^^ p.2)) 0 = 0 :=
              (ih y hlen').mpr h2
            rw [h1, Nat.xor_self, h3]
            simp

/-- `ConstantTimeCompare` decides byte-list equality. -/
theorem constantTimeCompare_eq (x y : List Nat) :
    (ConstantTimeCompare x y).1 = true ↔ x = y := by
  unfold ConstantTimeCompare
  by_cases hlen : x.length = y.length
  · rw [if_neg (by simp [hlen])]
    simp only [beq_iff_eq]
    exact foldl_xor_eq_zero x y hlen
  · rw [if_pos hlen]
    simp only [Bool.false_eq_true, false_iff]
    intro h
    exact hlen (by rw [h])

/-- The latch of `ValidateAPIKey` over the fold: the outcome is the OR
of the accumulator with "some stored key matches". -/
theorem validateAPIKey_fold_fst (apiKeys : List (List Nat)) (key : List Nat)
    (acc : Bool × Nat) :
    (apiKeys.foldl
      (fun acc storedKey =>
        let c := ConstantTimeCompare key storedKey
        (if c.1 then true else acc.1, acc.2 + c.2)) acc).1 =
      (acc.1 || apiKeys.any fun k => (ConstantTimeCompare key k).1) := by
  induction apiKeys generalizing acc with
  | nil => simp
  | cons k ks ih =>
      rw [List.foldl_cons, ih]
      by_cases hc : (ConstantTimeCompare key k).1
      · simp [hc]
      · simp [hc]

/-- The slice-based `ValidateAPIKey` accepts exactly the stored keys. -/
theorem ValidateAPIKey_correct (apiKeys : List (List Nat)) (key : List Nat) :
    (ValidateAPIKey apiKeys key).1 = true ↔ key ∈ apiKeys := by
  unfold ValidateAPIKey
  rw [validateAPIKey_fold_fst]
  simp only [Bool.false_or, List.any_eq_true]
  constructor
  · rintro ⟨k, hk, hc⟩
    have := (constantTimeCompare_eq key k).mp hc
    rw [this]
    exact hk
  · intro hk
    exact ⟨key, hk, (constantTimeCompare_eq key key).mpr rfl⟩

/-- The byte-comparison count of the fold: the accumulator plus one full
`ConstantTimeCompare` count per stored key, match or no match. -/
theorem validateAPIKey_fold_snd (apiKeys : List (List Nat)) (key : List Nat)
    (acc : Bool × Nat) :
    (apiKeys.foldl
      (fun acc storedKey =>
        let c := ConstantTimeCompare key storedKey
        (if c.1 then true else acc.1, acc.2 + c.2)) acc).2 =
      acc.2 + (apiKeys.map fun k => (ConstantTimeCompare key k).2).sum := by
  induction apiKeys generalizing acc with
  | nil => simp
  | cons k ks ih =>
      rw [List.foldl_cons, ih]
      simp only [List.map_cons, List.sum_cons]
      omega

/-- Constant-time hyperproperty of the slice-based `ValidateAPIKey`: the
number of byte comparisons performed depends only on the lengths of the
presented key and of the stored keys — never on their contents, on
whether a match occurs, or on where in the set it occurs. -/
theorem ValidateAPIKey_constant_time (ks ks' : List (List Nat))
    (key key' : List Nat) (hk : key.length = key'.length)
    (hks : ks.map List.length = ks'.map List.length) :
    (ValidateAPIKey ks key).2 = (ValidateAPIKey ks' key').2 := by
  unfold ValidateAPIKey
  rw [validateAPIKey_fold_snd, validateAPIKey_fold_snd]
  congr 1
  induction ks generalizing ks' with
  | nil =>
      cases ks' with
      | nil => rfl
      | cons _ _ => simp at hks
  | cons a l ih =>
      cases ks' with
      | nil => simp at hks
      | cons b l' =>
          simp only [List.map_cons, List.cons.injEq] at hks
          simp only [List.map_cons, List.sum_cons]
          rw [ih l' hks.2]
          congr 1
          unfold ConstantTimeCompare
          rw [hk, hks.1]
          split <;> rfl

/-- Claim C4 (code bug): the map-based `ValidateAPIKey` of
internal/config/config.go is a Go map membership test that stops at the
first matching entry — with stored keys "a" and "b" and presented key
"a" it examines a single entry — whereas the slice-based revision
(part_009) performs the full constant-time comparison against both
entries, as the function's own doc comment and the spec require. -/
theorem C4_map_lookup_short_circuits :
    validateAPIKeyMap [[97], [98]] [97] = (true, 1) ∧
    (ValidateAPIKey [[97], [98]] [97]).2 = 2 ∧
    (ValidateAPIKey [[97], [98]] [97]).1 = true := by
  refine ⟨rfl, rfl, rfl⟩

end MCPServer
